import Mathlib

/-!
Verification model of the `secure-api-client` repository (TypeScript).

The embedding translates the request-orchestration pipeline of the library:

* `src/types.ts`   — data model (`ApiRequest`, `ApiResponse`, tokens, options);
* `src/errors.ts`  — `toApiError`, `makeErrorShape`;
* `src/auth.ts`    — `MemoryTokenStorage`, `AuthManager`;
* `src/stream.ts`  — `streamResponse`;
* `src/unnamed/part_000` ("cache.ts") — `LruCacheAdapter`, `InFlightDeduper`;
* `src/unnamed/part_001` ("crypto.ts" + "client.ts") — `buildUrl`,
  `methodToInit`, `defaultHeadersFor`, `ApiClient.request`, `ApiClient.execute`,
  `ApiClient.withEncryption`.

Modelling conventions:

* JavaScript values that cross `JSON.stringify` are modelled by the inductive
  `JsValue` (including a distinguished `undef` for `undefined`, which
  `JSON.stringify` drops inside objects and renders as `null` inside arrays).
* JS exceptions / rejected promises are modelled with `Except Thrown`;
  a `.error` that reaches the top level of `requestModel` models a rejection
  of the promise returned by the public `request` method.
* External platform primitives (the `fetch` transport, `new URL` resolution,
  `JSON.parse`, `decodeJwt`, the decrypt half of the injected
  `EncryptionAdapter`, `Date.now`, `nanoid`) are oracles collected in `Env`.
* The encrypt half of the encryption capability is modelled symbolically as
  the free constructor `BData.enc`: ciphertext reveals nothing of its
  plaintext, which is the standard symbolic model of an AEAD cipher.
* Bytes handed to the transport are modelled by `BData` at the granularity
  the claims need (a JSON text, a ciphertext, a serialized gateway envelope).
-/

/-! ## JavaScript values and `JSON.stringify` -/

/-- A JavaScript value as far as `JSON.stringify` and the client observe it.
`undef` models the JS value `undefined`; numbers are modelled as integers. -/
inductive JsValue where
  | null : JsValue
  | undef : JsValue
  | bool : Bool → JsValue
  | num : Int → JsValue
  | str : String → JsValue
  | arr : List JsValue → JsValue
  | obj : List (String × JsValue) → JsValue

/-- One hex digit, used by the `\u00XX` escapes of `JSON.stringify`. -/
def hexDigit (n : Nat) : String :=
  if n < 10 then toString n
  else if n = 10 then "a" else if n = 11 then "b" else if n = 12 then "c"
  else if n = 13 then "d" else if n = 14 then "e" else "f"

/-- Escaping of a single character inside a JSON string literal, following
`JSON.stringify`: quote, backslash, the named control escapes, and `\u00XX`
for the remaining control characters. -/
def escChar (c : Char) : String :=
  if c = '"' then "\\\""
  else if c = '\\' then "\\\\"
  else if c = '\n' then "\\n"
  else if c = '\r' then "\\r"
  else if c = '\t' then "\\t"
  else if c = '\x08' then "\\b"
  else if c = '\x0c' then "\\f"
  else if c.toNat < 32 then "\\u00" ++ hexDigit (c.toNat / 16) ++ hexDigit (c.toNat % 16)
  else String.singleton c

/-- A JSON string literal with its quotes, as `JSON.stringify` renders it. -/
def escapeString (s : String) : String :=
  "\"" ++ String.join (s.data.map escChar) ++ "\""

mutual
/-- `JSON.stringify` on a defined JS value.  Inside arrays `undefined`
serializes as `null`; inside objects, properties whose value is `undefined`
are dropped (both are `JSON.stringify` semantics). -/
def jsonStringify : JsValue → String
  | .null => "null"
  | .undef => "null"
  | .bool true => "true"
  | .bool false => "false"
  | .num n => toString n
  | .str s => escapeString s
  | .arr xs => "[" ++ String.intercalate "," (stringifyElems xs) ++ "]"
  | .obj fs => "\x7b" ++ String.intercalate "," (stringifyFields fs) ++ "\x7d"

/-- Array elements of `JSON.stringify`. -/
def stringifyElems : List JsValue → List String
  | [] => []
  | v :: vs => jsonStringify v :: stringifyElems vs

/-- Object properties of `JSON.stringify`; `undefined`-valued properties are
skipped. -/
def stringifyFields : List (String × JsValue) → List String
  | [] => []
  | (k, v) :: fs =>
    match v with
    | .undef => stringifyFields fs
    | v => (escapeString k ++ ":" ++ jsonStringify v) :: stringifyFields fs
end

/-- Top-level `JSON.stringify`: `undefined` (and only it, in this model)
makes `JSON.stringify` return the JS value `undefined`, i.e. `none`. -/
def stringifyJS : JsValue → Option String
  | .undef => none
  | v => some (jsonStringify v)

/-- `x ?? null`: the nullish coalescing the client applies to `req.body`
before serializing it into the cache key. -/
def coalesceNull : JsValue → JsValue
  | .undef => .null
  | .null => .null
  | v => v

/-! ## HTTP methods (`src/types.ts`) -/

/-- `HttpMethod` from `src/types.ts`. -/
inductive HttpMethod where
  | GET | POST | PUT | DELETE | PATCH | FORMDATA
deriving DecidableEq, Repr

/-- The literal string of a method, as it appears in the cache key and in the
gateway envelope. -/
def methodStr : HttpMethod → String
  | .GET => "GET"
  | .POST => "POST"
  | .PUT => "PUT"
  | .DELETE => "DELETE"
  | .PATCH => "PATCH"
  | .FORMDATA => "FORMDATA"

/-- The method string put on the wire: `method === "FORMDATA" ? "POST" : method`
(client.ts, `execute`). -/
def methodWire : HttpMethod → String
  | .FORMDATA => "POST"
  | m => methodStr m

/-! ## Header maps

JS plain objects with string keys; spread syntax `{...a, ...b}` merges with
the right side winning.  Only key lookup is observable to the claims, so the
maps are modelled as association lists with distinct keys. -/

/-- `obj[k] = v` on a JS object modelled as an association list. -/
def hdrSet (hs : List (String × String)) (k v : String) : List (String × String) :=
  hs.filter (fun kv => kv.1 ≠ k) ++ [(k, v)]

/-- `{...a, ...b}`: merge with the right operand winning on key conflicts. -/
def hdrMerge (a b : List (String × String)) : List (String × String) :=
  b.foldl (fun acc kv => hdrSet acc kv.1 kv.2) a

/-! ## Thrown values and the error helpers (`src/errors.ts`) -/

/-- A thrown JS value / promise-rejection reason, at the granularity
`toApiError` inspects it: an `ApiError` instance, some other object carrying
a `message` property (and possibly `code`, `status`, `details`), or a
primitive coerced through `String(e)`. -/
inductive Thrown where
  | apiErr (code message : String) (status : Option Int) (details : Option JsValue)
  | objMsg (message : String) (code : Option String) (status : Option Int)
      (details : Option JsValue)
  | prim (s : String)

/-- The `ApiError` fields `toApiError` produces (`src/errors.ts`). -/
structure ApiErrorVal where
  code : String
  message : String
  status : Option Int
  details : Option JsValue

/-- `toApiError` from `src/errors.ts`: pass `ApiError` through, read
`message`/`code`/`status`/`details` off message-bearing objects (with the
fallback code), and coerce anything else to a string. -/
def toApiError (e : Thrown) (fallbackCode : String) : ApiErrorVal :=
  match e with
  | .apiErr c m s d => ⟨c, m, s, d⟩
  | .objMsg m c s d => ⟨c.getD fallbackCode, m, s, d⟩
  | .prim s => ⟨fallbackCode, s, none, none⟩

/-- `makeErrorShape` from `src/errors.ts`: `{code, message, details}` as a JS
object (`details` present but `undefined` when the error carries none). -/
def makeErrorShape (e : ApiErrorVal) : JsValue :=
  .obj [("code", .str e.code), ("message", .str e.message),
        ("details", e.details.getD .undef)]

/-! ## The uniform result type (`ApiResponse` in `src/types.ts`) -/

/-- `ApiResponse<T>`: the discriminated union returned to the caller.  The
error branch carries the `ApiErrorShape` as a JS object. -/
inductive ApiResult where
  | success (status : Int) (headers : List (String × String)) (data : JsValue)
  | failure (status : Int) (headers : Option (List (String × String))) (error : JsValue)

/-- The `ok` discriminator of an `ApiResponse`. -/
def ApiResult.isSuccess : ApiResult → Bool
  | .success _ _ _ => true
  | .failure _ _ _ => false

/-- Executable substring test: does `needle` occur contiguously in `hay`?
(Models the JS `String.prototype.includes`.) -/
def strOccurs (needle hay : String) : Bool :=
  (List.range (hay.data.length + 1)).any
    (fun i => needle.data.isPrefixOf (hay.data.drop i))

/-! ## Transport-level byte payloads

`BData` models the byte strings the client hands to the transport.  The
encrypt half of the injected `EncryptionAdapter` is the free constructor
`enc` (symbolic cipher: the ciphertext reveals nothing), and the gateway
envelope `encodeJson({id, url, method, headers, payload})` built in
`execute` (client.ts) is kept structured as the `envelope` constructor. -/

/-- Byte payloads at the granularity the claims observe. -/
inductive BData where
  | raw (s : String)
  | enc (b : BData)
  | envelope (id : String) (url : String) (methodName : String)
      (headers : List (String × String)) (payload : BData)

/-- Does `needle` occur in cleartext inside a payload?  Anything below an
encryption layer is invisible; the fields of a serialized (but not yet
encrypted) envelope are visible. -/
def containsPlain (needle : String) : BData → Bool
  | .raw s => strOccurs needle s
  | .enc _ => false
  | .envelope id url m hs p =>
    strOccurs needle id || strOccurs needle url || strOccurs needle m
      || hs.any (fun kv => strOccurs needle kv.1 || strOccurs needle kv.2)
      || containsPlain needle p

/-- The `body` member of the `RequestInit` handed to `fetch`. -/
inductive TBody where
  | empty
  | formData (v : JsValue)
  | text (s : String)
  | blob (b : BData)

/-- Cleartext occurrence inside a request body. -/
def TBody.containsPlainB (needle : String) : TBody → Bool
  | .empty => false
  | .formData v => strOccurs needle (jsonStringify v)
  | .text s => strOccurs needle s
  | .blob b => containsPlain needle b

/-- What `execute` hands to the transport primitive (`fetch(url, init)`). -/
structure TransportReq where
  url : String
  method : String
  headers : List (String × String)
  body : TBody

/-- A transport response, with every way the client can consume its body
modelled as a possibly-throwing read (`Except Thrown`):
`response.arrayBuffer()`, `response.json()`, `response.text()`, and
`response.body` as a chunk sequence.  A stream read item `none` models a
`{done: false, value: undefined}` read; `streamErr = some e` models the
reader throwing after the listed chunks. -/
structure TransportResp where
  status : Int
  headers : List (String × String)
  bytes : Except Thrown BData
  jsonBody : Except Thrown JsValue
  textBody : Except Thrown String
  streamBody : Option (List (Option (List Nat)))
  streamErr : Option Thrown

/-- `Response.ok`: status in the inclusive range 200–299. -/
def respOk (r : TransportResp) : Bool :=
  200 ≤ r.status && r.status < 300

/-! ## Cache (`LruCacheAdapter`, src/unnamed/part_000)

The backing `lru-cache` library is external; its recency bookkeeping and
max-capacity eviction are abstracted away and the adapter's own logic —
the `{value, expiresAt}` wrapping, the lazy expiry check on `get`, and the
`ttlMs ? Date.now() + ttlMs : undefined` expiry computation on `set` — is
kept exactly. -/

/-- A cache entry `{value, expiresAt?}`. -/
structure CacheEntry where
  value : ApiResult
  expiresAt : Option Int

/-- `LruCacheAdapter.get`: a hit past its TTL deletes the entry and reports
a miss; returns the (possibly pruned) store alongside the result.  The JS
guard `entry.expiresAt && Date.now() >= entry.expiresAt` treats an expiry
of `0` as falsy, which the model preserves. -/
def cacheGet (now : Int) (c : List (String × CacheEntry)) (k : String) :
    Option ApiResult × List (String × CacheEntry) :=
  match c.find? (fun kv => kv.1 = k) with
  | none => (none, c)
  | some (_, e) =>
    match e.expiresAt with
    | some t =>
      if t ≠ 0 && now ≥ t then (none, c.filter (fun kv => kv.1 ≠ k))
      else (some e.value, c)
    | none => (some e.value, c)

/-- `LruCacheAdapter.set`: `expiresAt = ttlMs ? Date.now() + ttlMs :
undefined` (a zero TTL is falsy in JS and yields a never-expiring entry). -/
def cacheSet (now : Int) (c : List (String × CacheEntry)) (k : String)
    (v : ApiResult) (ttlMs : Int) : List (String × CacheEntry) :=
  c.filter (fun kv => kv.1 ≠ k)
    ++ [(k, ⟨v, if ttlMs ≠ 0 then some (now + ttlMs) else none⟩)]

/-! ## Auth Coordinator (`src/auth.ts`) -/

/-- `TokenPair` as `MemoryTokenStorage` holds it. -/
structure TokenPair where
  accessToken : Option String
  refreshToken : Option String

/-- `TokenMetadata`: expiry in epoch milliseconds plus the decoded JWT
payload. -/
structure TokenMeta where
  accessTokenExpiresAt : Option Int
  payload : Option JsValue

/-- The auth sub-configuration of `ClientOptions` that `AuthManager` reads:
the refresh callback (which may reject, hence `Except Thrown`) and the
injected expiry predicate. -/
structure AuthCfg where
  onRefresh : Option (TokenPair → Except Thrown TokenPair)
  isExpired : TokenMeta → Bool

/-- `defaultIsTokenExpired` (src/auth.ts): no known expiry means not
expired; otherwise `Date.now() >= accessTokenExpiresAt`. -/
def defaultIsTokenExpired (now : Int) (meta : TokenMeta) : Bool :=
  match meta.accessTokenExpiresAt with
  | none => false
  | some t => now ≥ t

/-- `AuthManager.enrichMetadata`: decode the JWT (decoding failures are
swallowed by the empty `catch`, modelled by the oracle returning `none`),
and scale a numeric `exp` claim to milliseconds. -/
def enrichMetadata (decodeJwt : String → Option JsValue) (tokens : TokenPair) :
    TokenMeta :=
  match tokens.accessToken with
  | none => ⟨none, some .null⟩
  | some tok =>
    match decodeJwt tok with
    | none => ⟨none, some .null⟩
    | some p =>
      match p with
      | .obj fs =>
        match fs.lookup "exp" with
        | some (.num n) => ⟨some (n * 1000), some p⟩
        | _ => ⟨none, some p⟩
      | _ => ⟨none, some p⟩

/-- `AuthManager.getValidAccessToken`: no token → `null`; fresh token →
return it; expired with both a refresh callback and a refresh token →
invoke the callback, persist its pair, return its access token; expired
with no way to refresh → `null`.  The returned pair is the storage state
after the call.  A rejection of the refresh callback propagates. -/
def getValidAccessToken (decodeJwt : String → Option JsValue) (cfg : AuthCfg)
    (tokens : TokenPair) : Except Thrown (Option String × TokenPair) :=
  match tokens.accessToken with
  | none => .ok (none, tokens)
  | some tok =>
    let meta := enrichMetadata decodeJwt tokens
    if ¬ cfg.isExpired meta then .ok (some tok, tokens)
    else
      match cfg.onRefresh, tokens.refreshToken with
      | some refresh, some rt =>
        match refresh ⟨some tok, some rt⟩ with
        | .error e => .error e
        | .ok updated => .ok (updated.accessToken, updated)
      | _, _ => .ok (none, tokens)

/-! ## Stream Relay (`streamResponse`, src/stream.ts) -/

/-- Callback invocations of `streamResponse`, in order. -/
inductive SEvent where
  | start (status : Int) (headers : List (String × String))
  | chunk (bytes : List Nat)
  | complete
  | errored
deriving DecidableEq, Repr

/-- Is an event an `onStart` invocation? -/
def isStartEv : SEvent → Bool
  | .start _ _ => true
  | _ => false

/-- The `onChunk` payloads of a trace, in delivery order. -/
def chunkPayloads (evs : List SEvent) : List (List Nat) :=
  evs.filterMap (fun e =>
    match e with
    | .chunk c => some c
    | _ => none)

/-- `streamResponse`: `onStart` fires first unconditionally; an absent body
means `onComplete` immediately; otherwise each read with a present value
fires `onChunk` — the JS guard `if (value)` only filters `undefined`, an
empty `Uint8Array` is truthy and is delivered — then `onComplete` on
graceful end, or `onError` followed by a re-throw when a read fails.
Returns the callback trace and the re-thrown error, if any. -/
def streamTrace (status : Int) (headers : List (String × String))
    (body : Option (List (Option (List Nat)))) (streamErr : Option Thrown) :
    List SEvent × Option Thrown :=
  match body with
  | none => ([.start status headers, .complete], none)
  | some reads =>
    let chunkEvents := reads.filterMap (fun r => r.map SEvent.chunk)
    match streamErr with
    | none => (.start status headers :: chunkEvents ++ [.complete], none)
    | some e => (.start status headers :: chunkEvents ++ [.errored], some e)

/-! ## Environment: platform and collaborator oracles -/

/-- External primitives the client calls, modelled as oracles:
`resolveUrl` is `buildUrl` (the `new URL` platform primitive, including its
query stringification/filtering loop), `decodeJwt` is `jose`'s decoder
(`none` models a decoding failure swallowed by `enrichMetadata`),
`transport` is the injected `fetch`, `parseBytes` is
`decodeJson`/`JSON.parse`, `decryptO` is the decrypt half of the injected
`EncryptionAdapter`, `now` is `Date.now()`, `nanoid` the generated random
id. -/
structure Env where
  now : Int
  nanoid : String
  resolveUrl : Option String → String → List (String × JsValue) → Except Thrown String
  decodeJwt : String → Option JsValue
  transport : TransportReq → Except Thrown TransportResp
  parseBytes : BData → Except Thrown JsValue
  decryptO : BData → Except Thrown BData

/-- The resolved `InternalOptions` of `ApiClient` (client.ts constructor):
`encryption` records whether an `EncryptionAdapter` is configured,
`cacheDisabled` records `options.cache === false`. -/
structure Opts where
  baseUrl : Option String
  gatewayPath : Option String
  defaultHeaders : List (String × String)
  auth : AuthCfg
  encryption : Bool
  cacheDisabled : Bool
  cacheTtlMs : Int
  enableInFlightDedup : Bool

/-- `ApiRequest` from `src/types.ts`; `body = .undef` models an absent body.
Streaming handlers are observed through the `streamTrace` events and the
cancellation signal through the transport oracle's outcome. -/
structure ApiRequest where
  url : String
  method : Option HttpMethod
  headers : List (String × String)
  query : List (String × JsValue)
  body : JsValue
  cacheKey : Option String
  stream : Bool

/-- Observable side effects of one logical request. -/
inductive Effect where
  | authConsult
  | transportCall (t : TransportReq)
  | cacheWrite (key : String)

/-- `defaultHeadersFor` (client.ts): content type omitted for
GET/DELETE/FORMDATA, otherwise octet-stream under encryption and JSON
without; plus the fixed accept header. -/
def defaultHeadersFor (method : HttpMethod) (encryption : Bool) :
    List (String × String) :=
  (if method ≠ .GET ∧ method ≠ .DELETE ∧ method ≠ .FORMDATA then
    [("content-type",
      if encryption then "application/octet-stream" else "application/json")]
   else [])
  ++ [("accept", "application/json, application/octet-stream;q=0.8, */*;q=0.5")]

/-- `methodToInit` (client.ts): GET/DELETE carry no body; FORMDATA passes
the body through verbatim; with encryption the body is `encodeJson`-encoded
into a binary blob (`JSON.stringify(undefined)` coerces to the text
`"undefined"` inside `TextEncoder.encode`); otherwise
`{body: JSON.stringify(body)}` — which is an absent body when
`JSON.stringify` returns `undefined`. -/
def methodToInit (method : HttpMethod) (body : JsValue) (encryption : Bool) :
    TBody :=
  match method with
  | .GET => .empty
  | .DELETE => .empty
  | .FORMDATA => .formData body
  | _ =>
    if encryption then .blob (.raw ((stringifyJS body).getD "undefined"))
    else
      match stringifyJS body with
      | some s => .text s
      | none => .empty

/-- The header object built at the top of `execute`:
`{...defaultHeadersFor(...), ...options.defaultHeaders, ...req.headers}`. -/
def mergedHeaders (opts : Opts) (method : HttpMethod) (req : ApiRequest) :
    List (String × String) :=
  hdrMerge (hdrMerge (defaultHeadersFor method opts.encryption)
    opts.defaultHeaders) req.headers

/-- The body-decoding region of `execute` (client.ts, the final `try`):
octet-stream content under encryption is read, decrypted and JSON-parsed;
JSON content is parsed; anything else is read as text.  Any `.error` models
an exception inside this `try`. -/
def decodeBody (env : Env) (encryption : Bool) (resp : TransportResp) :
    Except Thrown JsValue :=
  let ct := (List.lookup "content-type" resp.headers).getD ""
  if strOccurs "application/octet-stream" ct && encryption then
    match resp.bytes with
    | .error e => .error e
    | .ok buf =>
      match env.decryptO buf with
      | .error e => .error e
      | .ok dec => env.parseBytes dec
  else if strOccurs "application/json" ct then resp.jsonBody
  else
    match resp.textBody with
    | .error e => .error e
    | .ok t => .ok (.str t)

/-- The error wrapping of a non-ok decoded body (client.ts): reuse the body
when it is an object carrying a `code` property (present even if
`undefined`), else synthesize the generic HTTP-failure shape. -/
def httpErrorShape (data : JsValue) : JsValue :=
  match data with
  | .obj fs =>
    if (fs.lookup "code").isSome then .obj fs
    else .obj [("code", .str "ERR_HTTP"), ("message", .str "Request failed"),
               ("details", .obj fs)]
  | d => .obj [("code", .str "ERR_HTTP"), ("message", .str "Request failed"),
               ("details", d)]

/-- The body construction inside the guarded region of `execute`
(client.ts `try { ... fetch ... }`): the `RequestInit` body from
`methodToInit`, with the encryption/gateway envelope applied when the body
is an encrypted-mode blob. -/
def finalBodyFor (env : Env) (opts : Opts) (url : String) (method : HttpMethod)
    (req : ApiRequest) (headers : List (String × String)) : TBody :=
  match opts.encryption, methodToInit method req.body opts.encryption with
  | true, .blob b =>
    let encrypted := BData.enc b
    match opts.gatewayPath with
    | some _ =>
      .blob (.enc (.envelope env.nanoid url (methodStr method) headers encrypted))
    | none => .blob encrypted
  | _, other => other

/-- The transport-call phase of the guarded region: resolve the gateway URL
when configured (still inside the `try`), then perform the call. -/
def fetchPhase (env : Env) (opts : Opts) (url : String) (method : HttpMethod)
    (req : ApiRequest) (headers : List (String × String)) :
    List Effect × Except Thrown TransportResp :=
  match (match opts.gatewayPath with
         | some g => env.resolveUrl opts.baseUrl g []
         | none => .ok url) with
  | .error e => ([], .error e)
  | .ok target =>
    let treq : TransportReq :=
      ⟨target, methodWire method, headers, finalBodyFor env opts url method req headers⟩
    ([.transportCall treq], env.transport treq)

/-- `if (token) headers["authorization"] = `` `Bearer ${token}` `` (client.ts). -/
def applyAuthHeader (hs : List (String × String)) : Option String →
    List (String × String)
  | some t => hdrSet hs "authorization" ("Bearer " ++ t)
  | none => hs

/-- `ApiClient.execute` (client.ts): merge headers, consult the Auth
Coordinator (a rejection here — e.g. a throwing refresh callback — is NOT
guarded and escapes), attach the bearer header if a token is available,
perform the guarded transport phase (failures become the status-0
`ERR_NETWORK` result), then either relay the stream (failures become
`ERR_STREAM`) or decode the body (failures become `ERR_DECODE`), wrapping
non-ok statuses in a structured error.  Returns the result, the token
state after the call, and the observable effects. -/
def executeModel (env : Env) (opts : Opts) (tokens : TokenPair) (url : String)
    (method : HttpMethod) (req : ApiRequest) :
    Except Thrown (ApiResult × TokenPair × List Effect) :=
  let headers0 := mergedHeaders opts method req
  match getValidAccessToken env.decodeJwt opts.auth tokens with
  | .error e => .error e
  | .ok (token, tokens') =>
    let headers := applyAuthHeader headers0 token
    match fetchPhase env opts url method req headers with
    | (effs, .error e) =>
      .ok (.failure 0 none (makeErrorShape (toApiError e "ERR_NETWORK")),
           tokens', .authConsult :: effs)
    | (effs, .ok resp) =>
      if req.stream then
        match streamTrace resp.status resp.headers resp.streamBody resp.streamErr with
        | (_, none) =>
          .ok (.success resp.status resp.headers .undef, tokens',
               .authConsult :: effs)
        | (_, some e) =>
          .ok (.failure resp.status (some resp.headers)
                (makeErrorShape (toApiError e "ERR_STREAM")), tokens',
               .authConsult :: effs)
      else
        match decodeBody env opts.encryption resp with
        | .error e =>
          .ok (.failure resp.status (some resp.headers)
                (makeErrorShape (toApiError e "ERR_DECODE")), tokens',
               .authConsult :: effs)
        | .ok data =>
          if respOk resp then
            .ok (.success resp.status resp.headers data, tokens',
                 .authConsult :: effs)
          else
            .ok (.failure resp.status (some resp.headers) (httpErrorShape data),
                 tokens', .authConsult :: effs)

/-! ## The public `request` operation (client.ts) -/

/-- The body component of the implicit cache key:
`JSON.stringify(req.body ?? null)` (client.ts, `request`); `JSON.stringify`
returning the JS value `undefined` renders as the text `undefined` inside a
template literal. -/
def keyBodyStr (body : JsValue) : String :=
  (stringifyJS (coalesceNull body)).getD "undefined"

/-- The implicit cache key:
`` `${method}:${url}:${JSON.stringify(req.body ?? null)}` `` (client.ts,
`request`). -/
def mkCacheKey (method : HttpMethod) (url : String) (body : JsValue) : String :=
  methodStr method ++ ":" ++ url ++ ":" ++ keyBodyStr body

/-- The cache key of a request: the explicit key if supplied, else the
computed one. -/
def computeCacheKey (method : HttpMethod) (url : String) (req : ApiRequest) :
    String :=
  match req.cacheKey with
  | some k => k
  | none => mkCacheKey method url req.body

/-- The mutable state one `ApiClient` instance owns: the token storage, the
cache store, and the in-flight registry.  An in-flight entry is modelled by
the settled outcome its shared promise will take (`.error` = it rejects). -/
structure ClientState where
  tokens : TokenPair
  cache : List (String × CacheEntry)
  inflight : List (String × Except Thrown ApiResult)

/-- `request` after the cache check (client.ts lines 208–219): the dedup
registry is consulted when enabled — a hit returns (awaits) the shared
pending result, propagating its rejection; otherwise `execute` runs and, on
settlement, a successful result is written to the cache when caching is
enabled.  The in-flight entry registered for this execution is removed when
it settles (`InFlightDeduper.set` schedules deletion via `finally`), so the
post-settlement registry equals the initial one. -/
def requestCore (env : Env) (opts : Opts) (st : ClientState) (key url : String)
    (method : HttpMethod) (req : ApiRequest) :
    Except Thrown (ApiResult × ClientState × List Effect) :=
  match (if opts.enableInFlightDedup then List.lookup key st.inflight else none) with
  | some (.error e) => .error e
  | some (.ok r) => .ok (r, st, [])
  | none =>
    match executeModel env opts st.tokens url method req with
    | .error e => .error e
    | .ok (res, tokens', effs) =>
      if !opts.cacheDisabled && res.isSuccess then
        .ok (res, ⟨tokens', cacheSet env.now st.cache key res opts.cacheTtlMs,
                   st.inflight⟩, effs ++ [.cacheWrite key])
      else .ok (res, ⟨tokens', st.cache, st.inflight⟩, effs)

/-- `ApiClient.request` (client.ts): resolve method and URL (a `new URL`
exception escapes — nothing guards it), compute the cache key, consult the
cache when enabled (a fresh hit returns immediately; a lazy-expired entry
is pruned), then proceed to dedup/execute.  The `.error` outcome models the
returned promise rejecting. -/
def requestModel (env : Env) (opts : Opts) (st : ClientState) (req : ApiRequest) :
    Except Thrown (ApiResult × ClientState × List Effect) :=
  let method := req.method.getD .GET
  match env.resolveUrl opts.baseUrl req.url req.query with
  | .error e => .error e
  | .ok url =>
    let key := computeCacheKey method url req
    if !opts.cacheDisabled then
      match cacheGet env.now st.cache key with
      | (some v, cache') => .ok (v, ⟨st.tokens, cache', st.inflight⟩, [])
      | (none, cache') =>
        requestCore env opts ⟨st.tokens, cache', st.inflight⟩ key url method req
    else requestCore env opts st key url method req

/-- The transport calls recorded in an effect list. -/
def transportCallsIn (effs : List Effect) : List TransportReq :=
  effs.filterMap (fun e => match e with
    | .transportCall t => some t
    | _ => none)

/-- The transport calls an `execute` run performed. -/
def transportCallsOfExec
    (r : Except Thrown (ApiResult × TokenPair × List Effect)) :
    List TransportReq :=
  match r with
  | .error _ => []
  | .ok (_, _, effs) => transportCallsIn effs

/-! ## In-flight deduplication under concurrency (`InFlightDeduper`)

In the single-threaded cooperative model (§5 of the spec), the segment of
`request` from the dedup lookup to `inflight.set` contains no suspension
point — `request` has no `await` before returning and `execute` is only
*called* (it suspends at its first `await` before reaching the transport)
— so a caller's check-then-register is atomic with respect to other
callers.  `arrive` is that atomic segment for one caller whose key has no
cache hit and dedup enabled; `settle` is the `promise.finally(() =>
map.delete(key))` continuation that runs when the shared promise settles,
regardless of its outcome (it does not inspect the result). -/

/-- The registry plus instrumentation: `nextId` identifies the next created
pending promise, `transports` counts executions (hence transport calls)
started. -/
structure DedupSys where
  reg : List (String × Nat)
  nextId : Nat
  transports : Nat

/-- What one arriving caller observes: it either joined an existing shared
promise or started a fresh execution. -/
inductive ArriveOutcome where
  | joined (id : Nat)
  | started (id : Nat)
deriving DecidableEq, Repr

/-- One caller arriving at `key`: `InFlightDeduper.get` then, on a miss,
start `execute` and `InFlightDeduper.set` the shared promise. -/
def arrive (key : String) (s : DedupSys) : DedupSys × ArriveOutcome :=
  match List.lookup key s.reg with
  | some id => (s, .joined id)
  | none =>
    (⟨s.reg ++ [(key, s.nextId)], s.nextId + 1, s.transports + 1⟩,
     .started s.nextId)

/-- `n` callers arriving at `key` one after another (their atomic segments
interleave in some order; the order among equals is irrelevant).  Returns
the final state and the outcomes in arrival order. -/
def arriveN : Nat → String → DedupSys → DedupSys × List ArriveOutcome
  | 0, _, s => (s, [])
  | n + 1, key, s =>
    let (s', out) := arrive key s
    let (s'', outs) := arriveN n key s'
    (s'', out :: outs)

/-- The removal continuation scheduled by `InFlightDeduper.set`: runs when
the shared promise settles, success or failure alike, and deletes the key. -/
def settle (key : String) (s : DedupSys) : DedupSys :=
  { s with reg := s.reg.filter (fun kv => kv.1 ≠ key) }

/-- How many in-flight entries a registry holds for `key`. -/
def entryCount (reg : List (String × Nat)) (key : String) : Nat :=
  (reg.filter (fun kv => kv.1 = key)).length

/-! ## Client construction and `withEncryption` (client.ts, src/auth.ts)

`withEncryption(secret)` re-runs the constructor on `{...this.options,
encryption: enc}`.  `InternalOptions` stores the *raw* `cache` option (the
constructed `LruCacheAdapter` lives in a separate private field), and the
raw `auth` config; so when the original options supplied no custom token
storage and no external cache, the derived client constructs a fresh
`MemoryTokenStorage` (src/auth.ts, `AuthManager` constructor) and a fresh
`LruCacheAdapter`.  Store identity is modelled by indices into a world of
allocated stores. -/

/-- The raw `cache` client option: `false`, an externally supplied adapter
(identified by its index), or absent (construct a private adapter). -/
inductive CacheOption where
  | disabled
  | external (idx : Nat)
  | default
deriving DecidableEq, Repr

/-- The raw constructor options that govern which stores a client uses. -/
structure RawOptions where
  baseUrl : Option String
  gatewayPath : Option String
  defaultHeaders : List (String × String)
  authStorage : Option Nat
  encryption : Bool
  cacheOption : CacheOption
  cacheTtlMs : Int
  enableInFlightDedup : Bool

/-- All allocated token stores and cache stores. -/
structure World where
  stores : List TokenPair
  caches : List (List (String × CacheEntry))

/-- A constructed `ApiClient`: its retained options plus the identities of
the token store and cache it owns (`cacheIdx = none` iff `cache: false`). -/
structure ClientRef where
  options : RawOptions
  storeIdx : Nat
  cacheIdx : Option Nat

/-- The `ApiClient` constructor: an absent `auth.storage` allocates a fresh
(empty) `MemoryTokenStorage`; `cache: false` disables caching, a supplied
adapter is shared, and an absent option allocates a fresh `LruCacheAdapter`. -/
def mkClient (w : World) (opts : RawOptions) : World × ClientRef :=
  let (w1, sIdx) :=
    match opts.authStorage with
    | some i => (w, i)
    | none =>
      ({ w with stores := w.stores ++ [(⟨none, none⟩ : TokenPair)] },
       w.stores.length)
  let (w2, cIdx) :=
    match opts.cacheOption with
    | .disabled => (w1, none)
    | .external i => (w1, some i)
    | .default => ({ w1 with caches := w1.caches ++ [[]] }, some w1.caches.length)
  (w2, ⟨opts, sIdx, cIdx⟩)

/-- `ApiClient.withEncryption`: construct a sibling client from
`{...this.options, encryption: enc}`; the receiver is not mutated. -/
def withEncryption (w : World) (c : ClientRef) : World × ClientRef :=
  mkClient w { c.options with encryption := true }

/-- `ApiClient.setTokens` through the world: writes only the client's own
token store. -/
def setTokensW (w : World) (c : ClientRef) (pair : TokenPair) : World :=
  { w with stores := w.stores.set c.storeIdx pair }

/-- A cache write through the world: touches only the client's own cache. -/
def cacheSetW (now : Int) (w : World) (c : ClientRef) (k : String)
    (v : ApiResult) (ttl : Int) : World :=
  match c.cacheIdx with
  | none => w
  | some i => { w with caches := w.caches.set i (cacheSet now (w.caches.getD i []) k v ttl) }

/-- The cache invariant of the spec (§4.2/§8): every stored entry holds a
Success result. -/
def cacheAllSuccess (c : List (String × CacheEntry)) : Prop :=
  ∀ kv ∈ c, kv.2.value.isSuccess = true

/-! ## Concrete fixtures for scenarios and witnesses -/

/-- A benign JSON transport response used by concrete scenarios. -/
def wResp : TransportResp :=
  { status := 200, headers := [("content-type", "application/json")],
    bytes := .ok (.raw ""), jsonBody := .ok (.obj [("userId", .str "u1")]),
    textBody := .ok "", streamBody := none, streamErr := none }

/-- A concrete environment: URL resolution prepends the origin, the
transport answers `wResp`. -/
def wEnv : Env :=
  { now := 1000, nanoid := "id1",
    resolveUrl := fun _ path _ => .ok ("http://localhost" ++ path),
    decodeJwt := fun _ => none,
    transport := fun _ => .ok wResp,
    parseBytes := fun _ => .error (.prim "parse"),
    decryptO := fun b =>
      match b with
      | .enc x => .ok x
      | _ => .error (.prim "cipher") }

/-- Concrete default-ish options: caching and dedup on, no encryption, no
gateway, no auth config. -/
def wOpts : Opts :=
  { baseUrl := none, gatewayPath := none, defaultHeaders := [],
    auth := ⟨none, fun _ => false⟩, encryption := false,
    cacheDisabled := false, cacheTtlMs := 10000, enableInFlightDedup := true }

/-- A previously cached successful result. -/
def cachedRes : ApiResult := .success 200 [] (.obj [("cached", .bool true)])

/-- Client state holding a fresh cache entry under key `k1` (expires at
2000, now is 1000). -/
def c4St : ClientState :=
  ⟨⟨none, none⟩, [("k1", ⟨cachedRes, some 2000⟩)], []⟩

/-- A request with explicit cache key `k1`. -/
def c4Req : ApiRequest := ⟨"/users/me", some .GET, [], [], .undef, some "k1", false⟩


/-- A plain GET request with no explicit cache key. -/
def c5Req : ApiRequest := ⟨"/users/me", some .GET, [], [], .undef, none, false⟩

/-- The result `wEnv`'s transport yields for `c5Req`. -/
def c5Res : ApiResult :=
  .success 200 [("content-type", "application/json")] (.obj [("userId", .str "u1")])

/-- The client state after running `c5Req` from an empty state: the success
was cached under the computed key with expiry `now + cacheTtlMs`. -/
def c5StAfter : ClientState :=
  ⟨⟨none, none⟩,
   [("GET:http://localhost/users/me:null", ⟨c5Res, some 11000⟩)], []⟩

/-- An environment whose JWT decoder reports an `exp` claim of epoch
second 1 (i.e. expired at epoch millisecond 1000). -/
def c7Env : Env :=
  { wEnv with decodeJwt := fun _ => some (.obj [("exp", .num 1)]) }

/-- Options with the default expiry predicate at `now = 1000` and no
refresh callback. -/
def c7Opts : Opts :=
  { wOpts with auth := ⟨none, defaultIsTokenExpired 1000⟩ }

/-- A stored pair holding an expired access token and no refresh token. -/
def c7Tokens : TokenPair := ⟨some "expired-token", none⟩

/-- A plain GET request fixture for the auth scenario. -/
def c7Req : ApiRequest := ⟨"/x", some .GET, [], [], .undef, none, false⟩

/-- Options with a gateway path configured and no encryption capability. -/
def c9Opts : Opts := { wOpts with gatewayPath := some "/gw" }

/-- Options with both an encryption capability and a gateway path. -/
def c3Opts : Opts := { wOpts with gatewayPath := some "/gw", encryption := true }

/-- A POST request carrying a sensitive caller-supplied header. -/
def c3Req : ApiRequest :=
  ⟨"/secret", some .POST, [("x-api-key", "sek")], [], .obj [("a", .num 1)],
   none, false⟩

/-- An environment whose JWT decoder reports expiry in the past and whose
transport is unreachable. -/
def c1Env : Env :=
  { now := 2000000, nanoid := "n1",
    resolveUrl := fun _ p _ => .ok p,
    decodeJwt := fun _ => some (.obj [("exp", .num 1)]),
    transport := fun _ => .error (.prim "unreachable"),
    parseBytes := fun _ => .error (.prim "parse"),
    decryptO := fun _ => .error (.prim "cipher") }

/-- Options whose refresh callback rejects, with the default expiry
predicate at `now = 2000000`. -/
def c1Opts : Opts :=
  { wOpts with auth := ⟨some (fun _ => .error (.prim "refresh failed")),
                        defaultIsTokenExpired 2000000⟩ }

/-- State holding an expired access token plus a refresh token. -/
def c1St : ClientState := ⟨⟨some "stale", some "rt"⟩, [], []⟩

/-- A plain GET request fixture for the rejection scenario. -/
def c1Req : ApiRequest := ⟨"/data", some .GET, [], [], .undef, none, false⟩

/-- Raw options supplying neither a custom token storage nor an external
cache. -/
def c10Opts : RawOptions :=
  ⟨some "https://api", none, [], none, false, .default, 10000, true⟩

/-- A world with one allocated token store (holding a token) and one cache. -/
def c10World : World := ⟨[⟨some "tokA", none⟩], [[]]⟩

/-- The original client, owning store 0 and cache 0. -/
def c10Client : ClientRef := ⟨c10Opts, 0, some 0⟩

/-! # Theorems -/

/-! ## Shared list lemmas -/

/-- A successful `List.lookup` returns a pair present in the list. -/
theorem lookup_mem_pair {β : Type} {l : List (String × β)} {k : String} {v : β}
    (h : List.lookup k l = some v) : (k, v) ∈ l := by
  induction l with
  | nil => simp [List.lookup] at h
  | cons kv t ih =>
    obtain ⟨k', v'⟩ := kv
    rw [List.lookup] at h
    by_cases hk : k = k'
    · subst hk
      simp at h
      simp [h]
    · have : (k == k') = false := beq_false_of_ne hk
      rw [this] at h
      exact List.mem_cons_of_mem _ (ih h)

/-- A failed `List.lookup` means no pair in the list carries the key. -/
theorem lookup_none_not_mem {β : Type} {l : List (String × β)} {k : String}
    (h : List.lookup k l = none) : ∀ kv ∈ l, kv.1 ≠ k := by
  induction l with
  | nil => intro kv hkv; simp at hkv
  | cons kv t ih =>
    obtain ⟨k', v'⟩ := kv
    rw [List.lookup] at h
    intro p hp
    by_cases hk : k = k'
    · subst hk; simp at h
    · have hb : (k == k') = false := beq_false_of_ne hk
      rw [hb] at h
      rcases List.mem_cons.mp hp with h1 | h2
      · subst h1; simpa using Ne.symm hk
      · exact ih h p h2

/-! ## C4 — a fresh cache hit returns immediately with no side effects -/

/-- C4: if caching is enabled and a fresh (non-expired) cache entry exists
for the computed cache key, `request` returns the cached Result
immediately: no transport call is made, the Auth Coordinator is never
consulted, no cache write happens, and the client state is unchanged. -/
theorem C4_cache_hit_no_side_effects (env : Env) (opts : Opts)
    (st : ClientState) (req : ApiRequest) (url : String) (v : ApiResult)
    (hCacheOn : opts.cacheDisabled = false)
    (hUrl : env.resolveUrl opts.baseUrl req.url req.query = .ok url)
    (hHit : cacheGet env.now st.cache
        (computeCacheKey (req.method.getD .GET) url req) = (some v, st.cache)) :
    requestModel env opts st req = .ok (v, st, []) := by
  unfold requestModel
  rw [hUrl, hCacheOn]
  simp only [Bool.not_false, if_true]
  rw [hHit]

/-- Witness for C4 at a concrete input: the fresh hit returns the cached
result with no effects and unchanged state. -/
theorem C4_witness :
    requestModel wEnv wOpts c4St c4Req = .ok (cachedRes, c4St, []) :=
  C4_cache_hit_no_side_effects wEnv wOpts c4St c4Req "http://localhost/users/me"
    cachedRes rfl rfl rfl

/-! ## C5 — only Success results are ever cached -/

/-- `LruCacheAdapter.get` only ever deletes entries, so it preserves the
all-success invariant. -/
theorem cacheGet_snd_preserves (now : Int) (c : List (String × CacheEntry))
    (k : String) (h : cacheAllSuccess c) :
    cacheAllSuccess (cacheGet now c k).2 := by
  unfold cacheGet
  rcases hf : c.find? (fun kv => kv.1 = k) with _ | ⟨a, e⟩
  · simpa [hf] using h
  · simp only [hf]
    rcases e.expiresAt with _ | t
    · simpa using h
    · simp only
      split
      · intro kv hkv
        exact h kv (List.mem_of_mem_filter hkv)
      · simpa using h

/-- A value returned by `LruCacheAdapter.get` is one of the stored values. -/
theorem cacheGet_fst_success (now : Int) (c : List (String × CacheEntry))
    (k : String) (v : ApiResult) (h : cacheAllSuccess c)
    (hv : (cacheGet now c k).1 = some v) : v.isSuccess = true := by
  unfold cacheGet at hv
  rcases hf : c.find? (fun kv => kv.1 = k) with _ | ⟨a, e⟩
  · simp [hf] at hv
  · simp only [hf] at hv
    have hmem : (a, e) ∈ c := List.mem_of_find?_eq_some hf
    have hval : e.value.isSuccess = true := h (a, e) hmem
    obtain ⟨ev, eexp⟩ := e
    rcases eexp with _ | t
    · simp at hv
      subst hv
      exact hval
    · simp only at hv
      split at hv
      · simp at hv
      · simp at hv
        subst hv
        exact hval

/-- `LruCacheAdapter.set` with a success value preserves the invariant. -/
theorem cacheSet_preserves (now : Int) (c : List (String × CacheEntry))
    (k : String) (v : ApiResult) (ttl : Int) (h : cacheAllSuccess c)
    (hv : v.isSuccess = true) : cacheAllSuccess (cacheSet now c k v ttl) := by
  intro kv hkv
  rcases List.mem_append.mp hkv with h1 | h2
  · exact h kv (List.mem_of_mem_filter h1)
  · simp at h2
    rw [h2]
    simpa using hv

/-- The post-cache-check part of `request` writes only success values. -/
theorem requestCore_cache_inv (env : Env) (opts : Opts) (st : ClientState)
    (key url : String) (method : HttpMethod) (req : ApiRequest) (r : ApiResult)
    (st' : ClientState) (effs : List Effect)
    (hInv : cacheAllSuccess st.cache)
    (h : requestCore env opts st key url method req = .ok (r, st', effs)) :
    cacheAllSuccess st'.cache := by
  unfold requestCore at h
  split at h
  · simp at h
  · simp only [Except.ok.injEq, Prod.mk.injEq] at h
    first
    | exact hInv
    | · obtain ⟨-, h2, -⟩ := h
        rw [← h2]
        exact hInv
  · split at h
    · simp at h
    · split at h
      · next hcond =>
        have hsucc : _ = true := (Bool.and_eq_true _ _ ▸ hcond).2
        simp only [Except.ok.injEq, Prod.mk.injEq] at h
        first
        | exact cacheSet_preserves env.now st.cache key _ opts.cacheTtlMs hInv hsucc
        | · obtain ⟨-, h2, -⟩ := h
            rw [← h2]
            exact cacheSet_preserves env.now st.cache key _ opts.cacheTtlMs hInv hsucc
      · simp only [Except.ok.injEq, Prod.mk.injEq] at h
        first
        | exact hInv
        | · obtain ⟨-, h2, -⟩ := h
            rw [← h2]
            exact hInv

/-- C5: when a request settles, only Success results are written to the
cache — a state whose cache holds only successes still holds only successes
after any `request`, and consequently a cache `get` on the resulting state
never returns a Failure result. -/
theorem C5_only_success_cached (env : Env) (opts : Opts) (st : ClientState)
    (req : ApiRequest) (r : ApiResult) (st' : ClientState) (effs : List Effect)
    (hInv : cacheAllSuccess st.cache)
    (hRun : requestModel env opts st req = .ok (r, st', effs)) :
    cacheAllSuccess st'.cache ∧
      ∀ (now' : Int) (k : String) (v : ApiResult),
        (cacheGet now' st'.cache k).1 = some v → v.isSuccess = true := by
  have hmain : cacheAllSuccess st'.cache := by
    unfold requestModel at hRun
    split at hRun
    · simp at hRun
    · next url hres =>
      dsimp only at hRun
      split at hRun
      · split at hRun
        · next v cache' heq =>
          have hpres := cacheGet_snd_preserves env.now st.cache
            (computeCacheKey (req.method.getD .GET) url req) hInv
          rw [heq] at hpres
          simp only [Except.ok.injEq, Prod.mk.injEq] at hRun
          first
          | exact hpres
          | · obtain ⟨-, h2, -⟩ := hRun
              rw [← h2]
              exact hpres
        · next cache' heq =>
          have hpres := cacheGet_snd_preserves env.now st.cache
            (computeCacheKey (req.method.getD .GET) url req) hInv
          rw [heq] at hpres
          exact requestCore_cache_inv env opts _ _ _ _ req r st' effs hpres hRun
      · exact requestCore_cache_inv env opts st _ _ _ req r st' effs hInv hRun
  exact ⟨hmain, fun now' k v hv => cacheGet_fst_success now' st'.cache k v hmain hv⟩

/-- Witness for C5 at a concrete run from the empty state: the resulting
cache satisfies the invariant, and the concrete `get` at the written key
yields a success. -/
theorem C5_witness : cacheAllSuccess c5StAfter.cache ∧ c5Res.isSuccess = true :=
  ⟨(C5_only_success_cached wEnv wOpts ⟨⟨none, none⟩, [], []⟩ c5Req c5Res c5StAfter
      [.authConsult,
       .transportCall ⟨"http://localhost/users/me", "GET",
         [("accept", "application/json, application/octet-stream;q=0.8, */*;q=0.5")],
         .empty⟩,
       .cacheWrite "GET:http://localhost/users/me:null"]
      (by simp [cacheAllSuccess]) rfl).1,
   (C5_only_success_cached wEnv wOpts ⟨⟨none, none⟩, [], []⟩ c5Req c5Res c5StAfter
      [.authConsult,
       .transportCall ⟨"http://localhost/users/me", "GET",
         [("accept", "application/json, application/octet-stream;q=0.8, */*;q=0.5")],
         .empty⟩,
       .cacheWrite "GET:http://localhost/users/me:null"]
      (by simp [cacheAllSuccess]) rfl).2
     500 "GET:http://localhost/users/me:null" c5Res rfl⟩

/-! ## Shape lemmas for the transport phase of `execute` -/

/-- Without a gateway path, `execute` performs exactly one transport call,
aimed at the resolved true URL. -/
theorem fetchPhase_no_gateway (env : Env) (opts : Opts) (url : String)
    (method : HttpMethod) (req : ApiRequest) (headers : List (String × String))
    (hGw : opts.gatewayPath = none) :
    fetchPhase env opts url method req headers =
      ([.transportCall ⟨url, methodWire method, headers,
          finalBodyFor env opts url method req headers⟩],
       env.transport ⟨url, methodWire method, headers,
          finalBodyFor env opts url method req headers⟩) := by
  unfold fetchPhase
  rw [hGw]

/-- With a gateway path that resolves, `execute` performs exactly one
transport call, aimed at the resolved gateway URL whatever the true URL. -/
theorem fetchPhase_gateway (env : Env) (opts : Opts) (url : String)
    (method : HttpMethod) (req : ApiRequest) (headers : List (String × String))
    (g gurl : String)
    (hGw : opts.gatewayPath = some g)
    (hRes : env.resolveUrl opts.baseUrl g [] = .ok gurl) :
    fetchPhase env opts url method req headers =
      ([.transportCall ⟨gurl, methodWire method, headers,
          finalBodyFor env opts url method req headers⟩],
       env.transport ⟨gurl, methodWire method, headers,
          finalBodyFor env opts url method req headers⟩) := by
  unfold fetchPhase
  rw [hGw]
  dsimp only
  rw [hRes]

/-- When the Auth Coordinator settles successfully, `execute` always
settles to a Result (every later exception is caught), with the effect
trace `authConsult` followed by whatever the fetch phase did. -/
theorem executeModel_effects (env : Env) (opts : Opts) (tokens : TokenPair)
    (url : String) (method : HttpMethod) (req : ApiRequest)
    (tokenOpt : Option String) (tokens' : TokenPair)
    (hAuth : getValidAccessToken env.decodeJwt opts.auth tokens =
      .ok (tokenOpt, tokens')) :
    ∃ r, executeModel env opts tokens url method req =
      .ok (r, tokens', .authConsult :: (fetchPhase env opts url method req
        (applyAuthHeader (mergedHeaders opts method req) tokenOpt)).1) := by
  unfold executeModel
  rw [hAuth]
  dsimp only
  rcases hfp : fetchPhase env opts url method req
      (applyAuthHeader (mergedHeaders opts method req) tokenOpt) with ⟨effs0, tout⟩
  rcases tout with e | resp
  · exact ⟨_, rfl⟩
  · cases hst : req.stream
    · simp only [Bool.false_eq_true, if_false]
      rcases hdec : decodeBody env opts.encryption resp with e | data
      · exact ⟨_, rfl⟩
      · by_cases hok : respOk resp = true
        · simp only [hok, if_true]
          exact ⟨_, rfl⟩
        · simp only [hok, if_false]
          exact ⟨_, rfl⟩
    · simp only [if_true]
      rcases hstr : streamTrace resp.status resp.headers resp.streamBody
          resp.streamErr with ⟨evs, serr⟩
      rcases serr with _ | e
      · exact ⟨_, rfl⟩
      · exact ⟨_, rfl⟩

/-! ## C7 — expired token without refresh: proceed unauthenticated -/

/-- `AuthManager.getValidAccessToken` returns `null` (and leaves the stored
pair unchanged) when the access token is expired per the injected predicate
and either no refresh callback or no refresh token is available. -/
theorem getValid_expired_no_refresh (decodeJwt : String → Option JsValue)
    (cfg : AuthCfg) (tokens : TokenPair) (tok : String)
    (hTok : tokens.accessToken = some tok)
    (hExp : cfg.isExpired (enrichMetadata decodeJwt tokens) = true)
    (hNo : cfg.onRefresh = none ∨ tokens.refreshToken = none) :
    getValidAccessToken decodeJwt cfg tokens = .ok (none, tokens) := by
  unfold getValidAccessToken
  rw [hTok]
  dsimp only
  rw [hExp]
  simp only [not_true, if_false]
  rcases hNo with h1 | h1
  · rw [h1]
  · rw [h1]
    rcases cfg.onRefresh with _ | f
    · rfl
    · rfl

/-- C7: if the stored access token is expired per the injected expiry
predicate and no refresh callback (or no refresh token) is available,
`getValidAccessToken` yields `none`, and `execute` proceeds to the
transport call with the plain merged headers — in particular with no
`authorization` header when none was supplied — instead of failing. -/
theorem C7_expired_no_refresh_proceeds (env : Env) (opts : Opts)
    (tokens : TokenPair) (url : String) (method : HttpMethod)
    (req : ApiRequest) (tok : String)
    (hTok : tokens.accessToken = some tok)
    (hExp : opts.auth.isExpired (enrichMetadata env.decodeJwt tokens) = true)
    (hNo : opts.auth.onRefresh = none ∨ tokens.refreshToken = none)
    (hGw : opts.gatewayPath = none)
    (hNoAuth : List.lookup "authorization" (mergedHeaders opts method req) = none) :
    getValidAccessToken env.decodeJwt opts.auth tokens = .ok (none, tokens) ∧
    ∃ t, transportCallsOfExec (executeModel env opts tokens url method req) = [t]
      ∧ t.url = url
      ∧ t.headers = mergedHeaders opts method req
      ∧ List.lookup "authorization" t.headers = none := by
  have hAuth := getValid_expired_no_refresh env.decodeJwt opts.auth tokens tok
    hTok hExp hNo
  refine ⟨hAuth, ?_⟩
  obtain ⟨r, hr⟩ := executeModel_effects env opts tokens url method req none
    tokens hAuth
  rw [fetchPhase_no_gateway env opts url method req _ hGw] at hr
  refine ⟨⟨url, methodWire method, mergedHeaders opts method req,
    finalBodyFor env opts url method req (mergedHeaders opts method req)⟩, ?_, rfl, rfl, hNoAuth⟩
  rw [hr]
  rfl

/-- Witness for C7 at a concrete input: expired token, no way to refresh,
and the transport call goes out without an `authorization` header. -/
theorem C7_witness :
    getValidAccessToken c7Env.decodeJwt c7Opts.auth c7Tokens = .ok (none, c7Tokens) ∧
    ∃ t, transportCallsOfExec
        (executeModel c7Env c7Opts c7Tokens "http://localhost/x" .GET c7Req) = [t]
      ∧ t.url = "http://localhost/x"
      ∧ t.headers = mergedHeaders c7Opts .GET c7Req
      ∧ List.lookup "authorization" t.headers = none :=
  C7_expired_no_refresh_proceeds c7Env c7Opts c7Tokens "http://localhost/x" .GET
    c7Req "expired-token" rfl rfl (Or.inl rfl) rfl rfl

/-! ## C9 — a configured gateway captures every request -/

/-- When no encryption adapter is configured, or the method is
GET/DELETE/FORMDATA, `methodToInit` yields no encrypted-mode blob, so no
envelope is built: the transport body is exactly the `methodToInit` body,
independent of the target URL. -/
theorem finalBodyFor_no_envelope (env : Env) (opts : Opts) (url : String)
    (method : HttpMethod) (req : ApiRequest) (headers : List (String × String))
    (h : opts.encryption = false ∨ method = .GET ∨ method = .DELETE ∨
      method = .FORMDATA) :
    finalBodyFor env opts url method req headers =
      methodToInit method req.body opts.encryption := by
  rcases h with h | h | h | h
  · unfold finalBodyFor
    rw [h]
  · subst h
    unfold finalBodyFor methodToInit
    cases opts.encryption <;> rfl
  · subst h
    unfold finalBodyFor methodToInit
    cases opts.encryption <;> rfl
  · subst h
    unfold finalBodyFor methodToInit
    cases opts.encryption <;> rfl

/-- C9: whenever a gateway path is configured, every request is dispatched
to the resolved gateway URL — including requests for which no encrypted
envelope is built (no encryption capability, or GET/DELETE/FORMDATA).  For
those requests the true target URL is not transmitted in any form: the
whole observable behaviour of `execute` is independent of it. -/
theorem C9_gateway_always_dispatched (env : Env) (opts : Opts)
    (tokens : TokenPair) (url1 url2 : String) (method : HttpMethod)
    (req : ApiRequest) (g gurl : String)
    (hGw : opts.gatewayPath = some g)
    (hRes : env.resolveUrl opts.baseUrl g [] = .ok gurl)
    (hNoEnv : opts.encryption = false ∨ method = .GET ∨ method = .DELETE ∨
      method = .FORMDATA) :
    (∀ t ∈ transportCallsOfExec (executeModel env opts tokens url1 method req),
        t.url = gurl) ∧
    executeModel env opts tokens url1 method req =
      executeModel env opts tokens url2 method req := by
  have hfp : ∀ (u : String) (hs : List (String × String)),
      fetchPhase env opts u method req hs =
        ([.transportCall ⟨gurl, methodWire method, hs,
            methodToInit method req.body opts.encryption⟩],
         env.transport ⟨gurl, methodWire method, hs,
            methodToInit method req.body opts.encryption⟩) := by
    intro u hs
    rw [fetchPhase_gateway env opts u method req hs g gurl hGw hRes,
        finalBodyFor_no_envelope env opts u method req hs hNoEnv]
  constructor
  · rcases hAuth : getValidAccessToken env.decodeJwt opts.auth tokens
        with e | ⟨tokOpt, tk'⟩
    · intro t ht
      unfold executeModel at ht
      rw [hAuth] at ht
      simp [transportCallsOfExec] at ht
    · obtain ⟨r, hr⟩ := executeModel_effects env opts tokens url1 method req
        tokOpt tk' hAuth
      rw [hfp url1] at hr
      intro t ht
      rw [hr] at ht
      simp only [transportCallsOfExec, transportCallsIn, List.filterMap] at ht
      simp at ht
      rw [ht]
  · unfold executeModel
    rcases hAuth : getValidAccessToken env.decodeJwt opts.auth tokens
        with e | ⟨tokOpt, tk'⟩
    · rfl
    · dsimp only
      rw [hfp url1, hfp url2]

/-- Witness for C9 at a concrete input: with a gateway configured and no
encryption, a GET is dispatched to the gateway URL and the whole `execute`
run is unchanged when the true target URL changes. -/
theorem C9_witness :
    (∀ t ∈ transportCallsOfExec (executeModel wEnv c9Opts ⟨none, none⟩
        "http://localhost/secret-a" .GET c7Req), t.url = "http://localhost/gw")
    ∧ executeModel wEnv c9Opts ⟨none, none⟩ "http://localhost/secret-a" .GET c7Req
      = executeModel wEnv c9Opts ⟨none, none⟩ "http://localhost/secret-b" .GET c7Req :=
  C9_gateway_always_dispatched wEnv c9Opts ⟨none, none⟩ "http://localhost/secret-a"
    "http://localhost/secret-b" .GET c7Req "/gw" "http://localhost/gw" rfl rfl
    (Or.inl rfl)

/-! ## C3 — gateway mode hides the URL, but headers are also sent in clear -/

/-- With encryption configured, a gateway path, and a non-GET/DELETE/FORMDATA
method, the transport body is the double-encrypted envelope carrying the
true URL, method name, headers, and the singly-encrypted serialized payload. -/
theorem finalBodyFor_envelope (env : Env) (opts : Opts) (url : String)
    (method : HttpMethod) (req : ApiRequest) (headers : List (String × String))
    (g : String)
    (hEnc : opts.encryption = true)
    (hGw : opts.gatewayPath = some g)
    (hM : method ≠ .GET ∧ method ≠ .DELETE ∧ method ≠ .FORMDATA) :
    finalBodyFor env opts url method req headers =
      .blob (.enc (.envelope env.nanoid url (methodStr method) headers
        (.enc (.raw ((stringifyJS req.body).getD "undefined"))))) := by
  obtain ⟨h1, h2, h3⟩ := hM
  unfold finalBodyFor methodToInit
  rw [hEnc, hGw]
  cases method
  · exact absurd rfl h1
  · rfl
  · rfl
  · exact absurd rfl h2
  · rfl
  · exact absurd rfl h3

/-- C3 counterexample: in gateway mode with encryption, the caller-supplied
header `x-api-key` is handed to the transport primitive in clear text
inside the outer request's headers (only the body is enveloped), refuting
the claim that request headers appear only inside the encrypted envelope. -/
theorem C3_counterexample_headers_in_clear :
    (transportCallsOfExec (executeModel wEnv c3Opts ⟨none, none⟩
        "http://localhost/secret" .POST c3Req)).map
      (fun t => (t.url, List.lookup "x-api-key" t.headers))
      = [("http://localhost/gw", some "sek")] := rfl

/-- C3 amended: with an encryption capability and a gateway path, every
non-GET/DELETE/FORMDATA request is sent to the gateway URL; the true target
URL reaches the transport only inside the double-encrypted JSON envelope
(never in cleartext in the body, and not as the request URL) — but the
request headers, while also carried inside the envelope, are additionally
handed to the transport in clear as the outer request's headers. -/
theorem C3_gateway_hides_url_not_headers (env : Env) (opts : Opts)
    (tokens : TokenPair) (url : String) (method : HttpMethod) (req : ApiRequest)
    (g gurl : String) (tokenOpt : Option String) (tokens' : TokenPair)
    (hEnc : opts.encryption = true)
    (hGw : opts.gatewayPath = some g)
    (hRes : env.resolveUrl opts.baseUrl g [] = .ok gurl)
    (hM : method ≠ .GET ∧ method ≠ .DELETE ∧ method ≠ .FORMDATA)
    (hAuth : getValidAccessToken env.decodeJwt opts.auth tokens =
      .ok (tokenOpt, tokens')) :
    ∃ t, transportCallsOfExec (executeModel env opts tokens url method req) = [t]
      ∧ t.url = gurl
      ∧ t.headers = applyAuthHeader (mergedHeaders opts method req) tokenOpt
      ∧ t.body = .blob (.enc (.envelope env.nanoid url (methodStr method)
          t.headers (.enc (.raw ((stringifyJS req.body).getD "undefined")))))
      ∧ TBody.containsPlainB url t.body = false := by
  obtain ⟨r, hr⟩ := executeModel_effects env opts tokens url method req
    tokenOpt tokens' hAuth
  rw [fetchPhase_gateway env opts url method req _ g gurl hGw hRes] at hr
  rw [finalBodyFor_envelope env opts url method req _ g hEnc hGw hM] at hr
  refine ⟨⟨gurl, methodWire method,
    applyAuthHeader (mergedHeaders opts method req) tokenOpt,
    .blob (.enc (.envelope env.nanoid url (methodStr method)
      (applyAuthHeader (mergedHeaders opts method req) tokenOpt)
      (.enc (.raw ((stringifyJS req.body).getD "undefined")))))⟩,
    ?_, rfl, rfl, rfl, rfl⟩
  rw [hr]
  rfl

/-- Witness for the amended C3 at the concrete gateway scenario. -/
theorem C3_witness :
    ∃ t, transportCallsOfExec (executeModel wEnv c3Opts ⟨none, none⟩
        "http://localhost/secret" .POST c3Req) = [t]
      ∧ t.url = "http://localhost/gw"
      ∧ t.headers = applyAuthHeader (mergedHeaders c3Opts .POST c3Req) none
      ∧ t.body = .blob (.enc (.envelope wEnv.nanoid "http://localhost/secret"
          (methodStr .POST) t.headers
          (.enc (.raw ((stringifyJS c3Req.body).getD "undefined")))))
      ∧ TBody.containsPlainB "http://localhost/secret" t.body = false :=
  C3_gateway_hides_url_not_headers wEnv c3Opts ⟨none, none⟩
    "http://localhost/secret" .POST c3Req "/gw" "http://localhost/gw" none
    ⟨none, none⟩ rfl rfl rfl ⟨by decide, by decide, by decide⟩ rfl

/-! ## C1 — failure convergence of the public `request` boundary -/

/-- C1 counterexample: `await this.auth.getValidAccessToken()` sits outside
every `try` in `execute`, so a rejection of the token-refresh callback
escapes `request` as a rejected promise instead of converging to a Failure
Result — refuting the claim for the refresh-callback failure path (URL
resolution and cache-key serialization sit outside the guards as well). -/
theorem C1_counterexample_refresh_rejection_escapes :
    requestModel c1Env c1Opts c1St c1Req = .error (.prim "refresh failed") := rfl

/-- After the cache check, a request settles (never rejects) provided the
Auth Coordinator settles and every joined in-flight promise settles. -/
theorem requestCore_settles (env : Env) (opts : Opts) (st : ClientState)
    (key url : String) (method : HttpMethod) (req : ApiRequest)
    (tokenOpt : Option String) (tokens' : TokenPair)
    (hAuth : getValidAccessToken env.decodeJwt opts.auth st.tokens =
      .ok (tokenOpt, tokens'))
    (hInflight : ∀ kv ∈ st.inflight, Except.isOk kv.2 = true) :
    Except.isOk (requestCore env opts st key url method req) = true := by
  unfold requestCore
  rcases hdd : (if opts.enableInFlightDedup then List.lookup key st.inflight
      else none) with _ | pend
  · obtain ⟨r, hr⟩ := executeModel_effects env opts st.tokens url method req
      tokenOpt tokens' hAuth
    rw [hr]
    dsimp only
    split <;> rfl
  · rcases pend with e | r
    · cases hded : opts.enableInFlightDedup
      · rw [hded] at hdd
        simp at hdd
      · rw [hded] at hdd
        simp only [if_true] at hdd
        have hmem := lookup_mem_pair hdd
        have := hInflight _ hmem
        simp [Except.isOk, Except.toBool] at this
    · rfl

/-- C1 amended: every failure arising at or after the transport boundary —
transport rejection, encryption, response decoding (decrypt and JSON
parse), and stream consumption — converges to a returned Failure Result;
but a request can still reject when URL resolution throws or the
token-refresh callback rejects (and, transitively, when it joins such a
pending in-flight promise).  Under those provisos `request` always settles
to a Result. -/
theorem C1_request_settles_amended (env : Env) (opts : Opts) (st : ClientState)
    (req : ApiRequest) (url : String) (tokenOpt : Option String)
    (tokens' : TokenPair)
    (hUrl : env.resolveUrl opts.baseUrl req.url req.query = .ok url)
    (hAuth : getValidAccessToken env.decodeJwt opts.auth st.tokens =
      .ok (tokenOpt, tokens'))
    (hInflight : ∀ kv ∈ st.inflight, Except.isOk kv.2 = true) :
    Except.isOk (requestModel env opts st req) = true := by
  unfold requestModel
  rw [hUrl]
  dsimp only
  cases hcd : opts.cacheDisabled
  · simp only [Bool.not_false, if_true]
    rcases hcg : cacheGet env.now st.cache
        (computeCacheKey (req.method.getD .GET) url req) with ⟨hit, cache'⟩
    rcases hit with _ | v
    · exact requestCore_settles env opts ⟨st.tokens, cache', st.inflight⟩ _ url
        (req.method.getD .GET) req tokenOpt tokens' hAuth hInflight
    · rfl
  · simp only [Bool.not_true, if_false]
    exact requestCore_settles env opts st _ url (req.method.getD .GET) req
      tokenOpt tokens' hAuth hInflight

/-- Witness for the amended C1: with an unreachable transport but a
well-behaved auth path, the request settles (to the status-0 network
Failure) instead of rejecting. -/
theorem C1_witness :
    Except.isOk (requestModel c1Env wOpts ⟨⟨none, none⟩, [], []⟩ c1Req) = true :=
  C1_request_settles_amended c1Env wOpts ⟨⟨none, none⟩, [], []⟩ c1Req "/data"
    none ⟨none, none⟩ rfl rfl (by simp)

/-! ## C8 — stream relay callback discipline -/

/-- Delivering present values of an option list is mapping over its
`reduceOption`. -/
theorem filterMap_optionMap_eq {α β : Type} (f : α → β) (l : List (Option α)) :
    l.filterMap (fun r => r.map f) = l.reduceOption.map f := by
  induction l with
  | nil => rfl
  | cons r t ih => rcases r with _ | c <;> simp [List.reduceOption, ih]

/-- C8 counterexample: a stream delivering one *empty* chunk still fires
`onChunk` once (the JS guard `if (value)` only filters `undefined`; an
empty `Uint8Array` is truthy), refuting "onChunk once per non-empty chunk":
here there are zero non-empty chunks but one `onChunk` invocation, with
empty bytes. -/
theorem C8_counterexample_empty_chunk :
    (streamTrace 200 [] (some [some []]) none).1 =
      [.start 200 [], .chunk [], .complete]
    ∧ chunkPayloads (streamTrace 200 [] (some [some []]) none).1 = [[]] :=
  ⟨rfl, rfl⟩

/-- C8 amended: on a graceful stream, `onStart` fires exactly once and
first, then `onChunk` fires once per *present* chunk — empty chunks
included — in exact arrival order (never reordered or batched), then
`onComplete` fires exactly once and last; an absent body yields exactly
`onStart` then `onComplete` with zero chunk callbacks. -/
theorem C8_stream_callbacks_amended (status : Int)
    (headers : List (String × String)) (reads : List (Option (List Nat))) :
    (streamTrace status headers (some reads) none).1
      = .start status headers :: (reads.reduceOption.map SEvent.chunk ++ [.complete])
    ∧ ((streamTrace status headers (some reads) none).1.filter isStartEv).length = 1
    ∧ (streamTrace status headers (some reads) none).1.head? =
        some (.start status headers)
    ∧ (streamTrace status headers (some reads) none).1.getLast? = some .complete
    ∧ ((streamTrace status headers (some reads) none).1.filter
        (fun e => e = SEvent.complete)).length = 1
    ∧ chunkPayloads (streamTrace status headers (some reads) none).1 =
        reads.reduceOption
    ∧ streamTrace status headers none none =
        ([.start status headers, .complete], none) := by
  have hmain : (streamTrace status headers (some reads) none).1
      = .start status headers :: (reads.reduceOption.map SEvent.chunk ++ [.complete]) := by
    unfold streamTrace
    dsimp only
    rw [filterMap_optionMap_eq]
    simp
  refine ⟨hmain, ?_, ?_, ?_, ?_, ?_, rfl⟩
  · rw [hmain]
    simp only [List.filter_cons, List.filter_append]
    rw [List.filter_map]
    have : (isStartEv ∘ SEvent.chunk) = fun _ => false := rfl
    rw [this]
    simp [isStartEv]
  · rw [hmain]
    rfl
  · rw [hmain, ← List.cons_append]
    exact List.getLast?_concat _
  · rw [hmain]
    simp only [List.filter_cons, List.filter_append]
    rw [List.filter_map]
    have : ((fun e => decide (e = SEvent.complete)) ∘ SEvent.chunk) =
        fun _ => false := rfl
    rw [this]
    simp
  · rw [hmain]
    simp only [chunkPayloads, List.filterMap_cons, List.filterMap_append]
    rw [List.filterMap_map]
    have hcomp : ((fun e =>
        match e with
        | SEvent.chunk c => some c
        | _ => none) ∘ SEvent.chunk) = some := rfl
    rw [hcomp, List.filterMap_some]
    simp

/-! ## C6 — determinism and injectivity of the implicit cache key -/

/-- Splitting at the first colon is unambiguous when both prefixes are
colon-free. -/
theorem colon_split (a : List Char) : ∀ (b x y : List Char), ':' ∉ a → ':' ∉ b →
    a ++ ':' :: x = b ++ ':' :: y → a = b ∧ x = y := by
  induction a with
  | nil =>
    intro b x y _ hb h
    cases b with
    | nil =>
      simp only [List.nil_append] at h
      exact ⟨rfl, by simpa using h⟩
    | cons c bt =>
      simp only [List.nil_append, List.cons_append] at h
      have hc : c = ':' := by injection h with h1 h2; exact h1.symm
      exact absurd (hc ▸ List.mem_cons_self c bt) hb
  | cons c t ih =>
    intro b x y ha hb h
    cases b with
    | nil =>
      simp only [List.cons_append, List.nil_append] at h
      have hc : c = ':' := by
        injection h with h1 h2
        try exact h1
      exact absurd (hc ▸ List.mem_cons_self c t) ha
    | cons c' bt =>
      simp only [List.cons_append] at h
      injection h with h1 h2
      have ha' : ':' ∉ t := fun hm => ha (List.mem_cons_of_mem c hm)
      have hb' : ':' ∉ bt := fun hm => hb (List.mem_cons_of_mem c' hm)
      obtain ⟨hab, hxy⟩ := ih bt x y ha' hb' h2
      exact ⟨by rw [h1, hab], hxy⟩

/-- No HTTP method name contains a colon. -/
theorem methodStr_colonFree (m : HttpMethod) : ':' ∉ (methodStr m).data := by
  cases m <;> decide

/-- The six method names are pairwise distinct. -/
theorem methodStr_injective {m1 m2 : HttpMethod}
    (h : methodStr m1 = methodStr m2) : m1 = m2 := by
  cases m1 <;> cases m2 <;> first | rfl | exact absurd h (by decide)

/-- The character decomposition of the implicit cache key. -/
theorem mkCacheKey_data (m : HttpMethod) (u : String) (b : JsValue) :
    (mkCacheKey m u b).data =
      (methodStr m).data ++ ':' :: (u.data ++ ':' :: (keyBodyStr b).data) := by
  have hcolon : (":" : String).data = [':'] := rfl
  simp [mkCacheKey, String.data_append, hcolon, List.append_assoc]

/-- C6 counterexample: the bodies `{a: undefined}` and `{}` are different
JS values, yet `JSON.stringify` drops `undefined`-valued properties, so
both yield the same serialized body and hence the same cache key — a
difference in body that does NOT yield a different key. -/
theorem C6_counterexample_distinct_bodies_same_key :
    mkCacheKey .POST "http://h/x" (.obj [("a", .undef)]) =
      mkCacheKey .POST "http://h/x" (.obj [])
    ∧ JsValue.obj [("a", .undef)] ≠ JsValue.obj [] :=
  ⟨rfl, by simp⟩

/-- C6 amended: the implicit cache key is a deterministic function of
method, resolved URL and serialized body, and it is injective in each
component separately: two keys differ whenever the methods differ (method
names are colon-free and pairwise distinct, so the first colon delimits
them), whenever the URLs differ with method and body fixed, and whenever
the bodies' `JSON.stringify` images differ with method and URL fixed.
Bodies that serialize identically (e.g. differing only in
`undefined`-valued properties) collide. -/
theorem C6_key_componentwise_injective :
    (∀ (m1 m2 : HttpMethod) (u1 u2 : String) (b1 b2 : JsValue),
      m1 ≠ m2 → mkCacheKey m1 u1 b1 ≠ mkCacheKey m2 u2 b2)
    ∧ (∀ (m : HttpMethod) (u1 u2 : String) (b : JsValue),
      u1 ≠ u2 → mkCacheKey m u1 b ≠ mkCacheKey m u2 b)
    ∧ (∀ (m : HttpMethod) (u : String) (b1 b2 : JsValue),
      keyBodyStr b1 ≠ keyBodyStr b2 → mkCacheKey m u b1 ≠ mkCacheKey m u b2) := by
  refine ⟨?_, ?_, ?_⟩
  · intro m1 m2 u1 u2 b1 b2 hne h
    have hd := congrArg String.data h
    rw [mkCacheKey_data, mkCacheKey_data] at hd
    obtain ⟨hm, -⟩ := colon_split _ _ _ _ (methodStr_colonFree m1)
      (methodStr_colonFree m2) hd
    exact hne (methodStr_injective (String.ext hm))
  · intro m u1 u2 b hne h
    have hd := congrArg String.data h
    rw [mkCacheKey_data, mkCacheKey_data] at hd
    have h2 := List.append_cancel_left hd
    injection h2 with hhead h3
    exact hne (String.ext (List.append_cancel_right h3))
  · intro m u b1 b2 hne h
    have hd := congrArg String.data h
    rw [mkCacheKey_data, mkCacheKey_data] at hd
    have h2 := List.append_cancel_left hd
    injection h2 with hh1 h3
    have h4 := List.append_cancel_left h3
    injection h4 with hh2 h5
    exact hne (String.ext h5)

/-- Witness for the amended C6 at concrete inputs: a method difference, a
URL difference, and a serialized-body difference each change the key. -/
theorem C6_witness :
    mkCacheKey .GET "http://h/x" .null ≠ mkCacheKey .POST "http://h/x" .null
    ∧ mkCacheKey .GET "http://h/a" .null ≠ mkCacheKey .GET "http://h/b" .null
    ∧ mkCacheKey .GET "http://h/x" (.bool true) ≠
        mkCacheKey .GET "http://h/x" (.bool false) :=
  ⟨C6_key_componentwise_injective.1 .GET .POST "http://h/x" "http://h/x"
      .null .null (by decide),
   C6_key_componentwise_injective.2.1 .GET "http://h/a" "http://h/b" .null
      (by decide),
   C6_key_componentwise_injective.2.2 .GET "http://h/x" (.bool true)
      (.bool false) (by decide)⟩

/-! ## C2 — in-flight deduplication: exactly one transport call per key -/

/-- Appending a fresh binding behind a missing key makes it found. -/
theorem lookup_append_miss {β : Type} (l : List (String × β)) (k : String)
    (v : β) (h : List.lookup k l = none) :
    List.lookup k (l ++ [(k, v)]) = some v := by
  induction l with
  | nil => simp
  | cons kv t ih =>
    obtain ⟨k', v'⟩ := kv
    rw [List.cons_append, List.lookup]
    rw [List.lookup] at h
    cases hk : (k == k')
    · rw [hk] at h
      exact ih h
    · rw [hk] at h
      exact Option.noConfusion h

/-- A missing key has no entry. -/
theorem entryCount_lookup_none {reg : List (String × Nat)} {k : String}
    (h : List.lookup k reg = none) : entryCount reg k = 0 := by
  unfold entryCount
  rw [List.length_eq_zero, List.filter_eq_nil_iff]
  intro kv hkv
  simpa using lookup_none_not_mem h kv hkv

/-- Deleting a key leaves no entry for it. -/
theorem entryCount_settle (reg : List (String × Nat)) (k : String) :
    entryCount (reg.filter (fun kv => kv.1 ≠ k)) k = 0 := by
  unfold entryCount
  rw [List.length_eq_zero, List.filter_eq_nil_iff]
  intro kv hkv
  have := List.of_mem_filter hkv
  simpa using this

/-- While the key is registered, every further arrival joins the existing
shared promise and nothing changes. -/
theorem arriveN_join (n : Nat) (key : String) (s : DedupSys) (id : Nat)
    (h : List.lookup key s.reg = some id) :
    arriveN n key s = (s, List.replicate n (.joined id)) := by
  induction n with
  | zero => rfl
  | succ n ih =>
    unfold arriveN arrive
    rw [h]
    dsimp only
    rw [ih]
    simp [List.replicate_succ]

/-- C2: with dedup enabled and no cache hit, among `n + 1` callers arriving
at the same key exactly the first starts an execution (hence the transport
count rises by exactly one) and all others join the same shared pending
result; the registry then holds exactly one entry for the key, the
settlement continuation removes it (whatever the outcome — `settle` never
inspects the result), and at every instant the registry holds at most one
entry for the key. -/
theorem C2_dedup_single_flight (n : Nat) (key : String) (s0 : DedupSys)
    (hNo : List.lookup key s0.reg = none) :
    (arriveN (n + 1) key s0).2 =
      .started s0.nextId :: List.replicate n (.joined s0.nextId)
    ∧ (arriveN (n + 1) key s0).1.transports = s0.transports + 1
    ∧ List.lookup key (arriveN (n + 1) key s0).1.reg = some s0.nextId
    ∧ entryCount (arriveN (n + 1) key s0).1.reg key = 1
    ∧ entryCount (settle key (arriveN (n + 1) key s0).1).reg key = 0
    ∧ ∀ m, entryCount ((arriveN m key s0).1).reg key ≤ 1 := by
  have h1 : arrive key s0 =
      (⟨s0.reg ++ [(key, s0.nextId)], s0.nextId + 1, s0.transports + 1⟩,
       .started s0.nextId) := by
    unfold arrive
    rw [hNo]
  have hlook : List.lookup key (s0.reg ++ [(key, s0.nextId)]) = some s0.nextId :=
    lookup_append_miss _ _ _ hNo
  have hN : ∀ k, arriveN (k + 1) key s0 =
      (⟨s0.reg ++ [(key, s0.nextId)], s0.nextId + 1, s0.transports + 1⟩,
       .started s0.nextId :: List.replicate k (.joined s0.nextId)) := by
    intro k
    unfold arriveN
    rw [h1]
    dsimp only
    rw [arriveN_join k key _ s0.nextId hlook]
  have hcount : entryCount (s0.reg ++ [(key, s0.nextId)]) key = 1 := by
    have hfilter : s0.reg.filter (fun kv => kv.1 = key) = [] := by
      rw [List.filter_eq_nil_iff]
      intro kv hkv
      simpa using lookup_none_not_mem hNo kv hkv
    unfold entryCount
    rw [List.filter_append, hfilter]
    simp
  refine ⟨by rw [hN n], by rw [hN n], by rw [hN n]; exact hlook, ?_, ?_, ?_⟩
  · rw [hN n]
    exact hcount
  · rw [hN n]
    exact entryCount_settle _ key
  · intro m
    cases m with
    | zero =>
      have h0 : (arriveN 0 key s0).1 = s0 := rfl
      rw [h0, entryCount_lookup_none hNo]
      exact Nat.zero_le 1
    | succ m' =>
      rw [hN m']
      exact Nat.le_of_eq hcount

/-- Witness for C2: three concurrent callers at key `k` from an empty
registry — the first starts execution 0, both others join it, exactly one
transport call, one registry entry, removed on settlement. -/
theorem C2_witness :
    (arriveN 3 "k" ⟨[], 0, 0⟩).2 = [.started 0, .joined 0, .joined 0]
    ∧ (arriveN 3 "k" ⟨[], 0, 0⟩).1.transports = 1
    ∧ entryCount (arriveN 3 "k" ⟨[], 0, 0⟩).1.reg "k" = 1
    ∧ entryCount (settle "k" (arriveN 3 "k" ⟨[], 0, 0⟩).1).reg "k" = 0 :=
  ⟨(C2_dedup_single_flight 2 "k" ⟨[], 0, 0⟩ rfl).1,
   (C2_dedup_single_flight 2 "k" ⟨[], 0, 0⟩ rfl).2.1,
   (C2_dedup_single_flight 2 "k" ⟨[], 0, 0⟩ rfl).2.2.2.1,
   (C2_dedup_single_flight 2 "k" ⟨[], 0, 0⟩ rfl).2.2.2.2.1⟩

/-! ## C10 — `withEncryption` derives an isolated sibling client -/

/-- C10: when the original options supplied no custom token storage and no
external cache, `withEncryption` constructs a new client whose options are
the original ones with encryption enabled, allocates a fresh empty token
store and a fresh empty cache (leaving every existing store untouched, so
the original client's state and configuration are unchanged), and the two
clients' stores have distinct identities: writing tokens through either
client is invisible through the other. -/
theorem C10_withEncryption_fresh_stores (w : World) (c : ClientRef)
    (hStorage : c.options.authStorage = none)
    (hCache : c.options.cacheOption = .default)
    (hsIdx : c.storeIdx < w.stores.length)
    (hcIdx : ∀ j, c.cacheIdx = some j → j < w.caches.length) :
    (withEncryption w c).2.options = { c.options with encryption := true }
    ∧ (∀ i, i < w.stores.length →
        (withEncryption w c).1.stores[i]? = w.stores[i]?)
    ∧ (∀ i, i < w.caches.length →
        (withEncryption w c).1.caches[i]? = w.caches[i]?)
    ∧ (withEncryption w c).2.storeIdx = w.stores.length
    ∧ (withEncryption w c).2.storeIdx ≠ c.storeIdx
    ∧ (withEncryption w c).2.cacheIdx = some w.caches.length
    ∧ (withEncryption w c).2.cacheIdx ≠ c.cacheIdx
    ∧ (withEncryption w c).1.stores[(withEncryption w c).2.storeIdx]? =
        some ⟨none, none⟩
    ∧ (withEncryption w c).1.caches[w.caches.length]? = some []
    ∧ (∀ p, (setTokensW (withEncryption w c).1 (withEncryption w c).2 p).stores[c.storeIdx]?
        = (withEncryption w c).1.stores[c.storeIdx]?)
    ∧ (∀ p, (setTokensW (withEncryption w c).1 c p).stores[(withEncryption w c).2.storeIdx]?
        = (withEncryption w c).1.stores[(withEncryption w c).2.storeIdx]?) := by
  have hw : withEncryption w c =
      (⟨w.stores ++ [⟨none, none⟩], w.caches ++ [[]]⟩,
       ⟨{ c.options with encryption := true }, w.stores.length,
        some w.caches.length⟩) := by
    unfold withEncryption mkClient
    simp [hStorage, hCache]
  rw [hw]
  refine ⟨rfl, ?_, ?_, rfl, ?_, rfl, ?_, ?_, ?_, ?_, ?_⟩
  · intro i hi
    exact List.getElem?_append_left hi
  · intro i hi
    exact List.getElem?_append_left hi
  · exact fun h => absurd (h ▸ hsIdx) (Nat.lt_irrefl _)
  · rcases hc : c.cacheIdx with _ | j
    · simp
    · have hj := hcIdx j hc
      intro h
      have hje : w.caches.length = j := by injection h
      exact absurd (hje ▸ hj) (Nat.lt_irrefl _)
  · exact List.getElem?_concat_length _ _
  · exact List.getElem?_concat_length _ _
  · intro p
    unfold setTokensW
    exact List.getElem?_set_ne (fun h => absurd (h ▸ hsIdx) (Nat.lt_irrefl _))
  · intro p
    unfold setTokensW
    exact List.getElem?_set_ne (fun h => absurd (h.symm ▸ hsIdx) (Nat.lt_irrefl _))

/-- Witness for C10 at a concrete world: the derived client gets the same
options with encryption on, a distinct fresh empty token store, and a
`setTokens` through the derived client leaves the original client's store
untouched. -/
theorem C10_witness :
    (withEncryption c10World c10Client).2.options =
      { c10Opts with encryption := true }
    ∧ (withEncryption c10World c10Client).2.storeIdx ≠ c10Client.storeIdx
    ∧ (withEncryption c10World c10Client).1.stores[
        (withEncryption c10World c10Client).2.storeIdx]? = some ⟨none, none⟩
    ∧ (setTokensW (withEncryption c10World c10Client).1
        (withEncryption c10World c10Client).2 ⟨some "tokB", none⟩).stores[
          c10Client.storeIdx]?
      = (withEncryption c10World c10Client).1.stores[c10Client.storeIdx]? :=
  ⟨(C10_withEncryption_fresh_stores c10World c10Client rfl rfl (by decide)
      (fun j h => by injection h with h; subst h; decide)).1,
   (C10_withEncryption_fresh_stores c10World c10Client rfl rfl (by decide)
      (fun j h => by injection h with h; subst h; decide)).2.2.2.2.1,
   (C10_withEncryption_fresh_stores c10World c10Client rfl rfl (by decide)
      (fun j h => by injection h with h; subst h; decide)).2.2.2.2.2.2.2.1,
   (C10_withEncryption_fresh_stores c10World c10Client rfl rfl (by decide)
      (fun j h => by injection h with h; subst h; decide)).2.2.2.2.2.2.2.2.2.1
     ⟨some "tokB", none⟩⟩
